import Mathlib

/-
A verification of the URL-extraction core of `store_repo_structure.py`.

The program reads repository documents from a database, recursively
extracts every string that starts with "https://" from each document's
nested structure field, and builds a mapping from repository name to the
list of extracted URLs, which it then prints and writes to a report file.
-/

/-- A Python value as traversed by the nested helper `collect_urls` inside
`extract_urls` (store_repo_structure.py, lines 9-32): a string, a list, a
dict with string keys, one of the remaining scalars (number, boolean,
None), or `foreign`, which stands for any other Python object; such a
value matches none of the three `isinstance` tests, so the traversal
leaves it untouched. -/
inductive Structure where
  | str (s : String)
  | intVal (n : Int)
  | boolVal (b : Bool)
  | nullVal
  | foreign
  | seq (xs : List Structure)
  | map (fields : List (String × Structure))

/-- The scheme test `item.startswith('https://')` (line 22): the character
sequence of `s` begins with the characters of `https://`. -/
def startsWithHttps (s : String) : Bool :=
  "https://".data.isPrefixOf s.data

mutual
/-- The nested helper `collect_urls(item)` (lines 21-29).  The Python
version mutates the enclosing set `urls`; here that set is threaded as an
explicit accumulator: a string passing the scheme test is inserted
(`urls.add(item)`, line 23), list elements and dict values are traversed
in order, and every other value leaves the accumulator unchanged. -/
def collect_urls (item : Structure) (urls : Finset String) : Finset String :=
  match item with
  | .str s => if startsWithHttps s then insert s urls else urls
  | .seq xs => collectSeq xs urls
  | .map kvs => collectMap kvs urls
  | _ => urls

/-- The `for subitem in item: collect_urls(subitem)` loop (lines 25-26). -/
def collectSeq (xs : List Structure) (urls : Finset String) : Finset String :=
  match xs with
  | [] => urls
  | x :: rest => collectSeq rest (collect_urls x urls)

/-- The `for value in item.values(): collect_urls(value)` loop (lines
28-29); dict keys are never examined. -/
def collectMap (kvs : List (String × Structure)) (urls : Finset String) : Finset String :=
  match kvs with
  | [] => urls
  | (_, v) :: rest => collectMap rest (collect_urls v urls)
end

/-- `extract_urls(structure)` (lines 9-32): run the traversal on an empty
set.  Python finally returns `list(urls)`, a duplicate-free list of the
collected strings in unspecified order; the `Finset` is that list up to
order, with the duplicate-freeness carried in `Finset.nodup`. -/
def extract_urls (st : Structure) : Finset String :=
  collect_urls st ∅

/-- Modelled from the spec: a string value is reachable in a structure via
any path through sequence elements and mapping values (never through
mapping keys).  This is the spec-side description of which strings are URL
candidates; it is compared against `extract_urls` below. -/
inductive StrReachable : Structure → String → Prop where
  | here (s : String) : StrReachable (.str s) s
  | inSeq {xs : List Structure} {x : Structure} {t : String} :
      x ∈ xs → StrReachable x t → StrReachable (.seq xs) t
  | inMap {kvs : List (String × Structure)} {k : String} {v : Structure} {t : String} :
      (k, v) ∈ kvs → StrReachable v t → StrReachable (.map kvs) t

mutual
/-- Nesting depth of a structure: a leaf has depth 1 and a container adds
one level on top of its deepest child.  This is the number of stack frames
`collect_urls` needs on that value, since the Python `for` loops iterate
within a single frame. -/
def depth : Structure → Nat
  | .seq xs => 1 + depthSeq xs
  | .map kvs => 1 + depthMap kvs
  | _ => 1

/-- Deepest element of a list of structures (0 when empty). -/
def depthSeq : List Structure → Nat
  | [] => 0
  | x :: rest => max (depth x) (depthSeq rest)

/-- Deepest value of a field list (0 when empty). -/
def depthMap : List (String × Structure) → Nat
  | [] => 0
  | (_, v) :: rest => max (depth v) (depthMap rest)
end

mutual
/-- `collect_urls` with an explicit recursion budget: each recursive call
into a child consumes one unit of fuel, while iterating over siblings does
not (the Python loops stay in one frame).  `none` means the budget was
exhausted, the analogue of exceeding the interpreter recursion limit. -/
def collectFuel : Nat → Structure → Finset String → Option (Finset String)
  | 0, _, _ => none
  | Nat.succ n, item, urls =>
    match item with
    | .str s => some (if startsWithHttps s then insert s urls else urls)
    | .seq xs => collectFuelSeq n xs urls
    | .map kvs => collectFuelMap n kvs urls
    | _ => some urls

/-- Fuelled version of the list loop; every element is visited with the
same remaining budget, as the loop itself opens no new frame. -/
def collectFuelSeq : Nat → List Structure → Finset String → Option (Finset String)
  | _, [], urls => some urls
  | n, x :: rest, urls =>
    match collectFuel n x urls with
    | none => none
    | some urls2 => collectFuelSeq n rest urls2

/-- Fuelled version of the dict-values loop. -/
def collectFuelMap : Nat → List (String × Structure) → Finset String → Option (Finset String)
  | _, [], urls => some urls
  | n, (_, v) :: rest, urls =>
    match collectFuel n v urls with
    | none => none
    | some urls2 => collectFuelMap n rest urls2
end

/-- One retrieved document, logically `\x7b repo?: string, structure?:
Structure \x7d`.  The Python dict may lack either key: `repo` is read with
`repo_doc.get('repo', 'Unknown')` and the structure field is guarded by
`'structure' in repo_doc` (lines 58-60).  The field is called `struct`
here because `structure` is a Lean keyword. -/
structure Doc where
  repo : Option String
  struct : Option Structure

/-- The string literal `Unknown` (line 59). -/
def unknownName : String := "Unknown"

/-- `repo_doc.get('repo', 'Unknown')` (line 59). -/
def repoName (d : Doc) : String :=
  d.repo.getD unknownName

/-- One iteration of the `for repo_doc in repositories` loop (lines
57-61): when the document has a structure field, plain dict assignment
`repository_urls[repo_name] = urls` binds the name to the freshly
extracted set, overwriting any earlier binding; otherwise the document is
skipped and the index is unchanged. -/
def indexStep (idx : String → Option (Finset String)) (d : Doc) :
    String → Option (Finset String) :=
  match d.struct with
  | some s => fun k => if k = repoName d then some (extract_urls s) else idx k
  | none => idx

/-- The empty index `repository_urls = \x7b\x7d` (line 55). -/
def emptyIndex : String → Option (Finset String) := fun _ => none

/-- The loop of `get_repository_urls` (lines 55-63): fold `indexStep` over
the retrieved documents in iteration order, starting from the empty dict.
The resulting index maps a repository name to `some` URL set when the name
is a key of `repository_urls`, and to `none` otherwise. -/
def buildIndex (docs : List Doc) : String → Option (Finset String) :=
  docs.foldl indexStep emptyIndex

/-- Outcome of the database collaborator inside `get_repository_urls`:
the `MongoClient(mongodb_uri)` constructor itself raises (for instance on
a malformed URI), or a later step raises (`find()` or iterating the
cursor), or retrieval succeeds with a list of documents. -/
inductive DBResult where
  | connectFailure
  | queryFailure
  | success (docs : List Doc)

/-- Result of running a Python function: a returned value, or an
uncaught exception escaping the call. -/
inductive PyOutcome (α : Type) where
  | ok (a : α)
  | raised (err : String)

/-- The name of the Python exception raised when a `finally` block reads a
local variable that was never assigned. -/
def unboundLocalError : String := "UnboundLocalError"

/-- `get_repository_urls` (lines 34-69), traced through its
`try/except/finally`:

* `connectFailure`: `client = MongoClient(...)` raises, so `client` is
  never bound.  The `except` clause catches, prints the error and runs
  `return \x7b\x7d`; but the `finally` clause then executes
  `client.close()` on the unbound local, which raises `UnboundLocalError`,
  and that exception replaces the pending return and escapes the call.
* `queryFailure`: `client` is bound before `find()` or cursor iteration
  raises; the `except` clause catches and returns the empty dict, and the
  `finally` clause closes the bound client without incident.
* `success docs`: the loop builds and returns the index, and the client
  is closed. -/
def get_repository_urls (db : DBResult) :
    PyOutcome (String → Option (Finset String)) :=
  match db with
  | .connectFailure => .raised unboundLocalError
  | .queryFailure => .ok emptyIndex
  | .success docs => .ok (buildIndex docs)

theorem strReachable_str_iff (t s : String) : StrReachable (.str t) s ↔ s = t := by
  constructor
  · intro h; cases h; rfl
  · rintro rfl; exact .here s

theorem strReachable_seq_iff (xs : List Structure) (s : String) :
    StrReachable (.seq xs) s ↔ ∃ x ∈ xs, StrReachable x s := by
  constructor
  · intro h
    cases h with
    | inSeq hx hr => exact ⟨_, hx, hr⟩
  · rintro ⟨x, hx, hr⟩
    exact .inSeq hx hr

theorem strReachable_map_iff (kvs : List (String × Structure)) (s : String) :
    StrReachable (.map kvs) s ↔ ∃ kv ∈ kvs, StrReachable kv.2 s := by
  constructor
  · intro h
    cases h with
    | inMap hkv hr => exact ⟨_, hkv, hr⟩
  · rintro ⟨kv, hkv, hr⟩
    exact .inMap (k := kv.1) (v := kv.2) (by simpa using hkv) hr

mutual
theorem mem_collect_urls (item : Structure) (acc : Finset String) (s : String) :
    s ∈ collect_urls item acc ↔
      s ∈ acc ∨ (StrReachable item s ∧ startsWithHttps s = true) := by
  cases item with
  | str t =>
    show s ∈ (if startsWithHttps t then insert t acc else acc) ↔ _
    rw [strReachable_str_iff t s]
    by_cases h : startsWithHttps t = true
    · rw [if_pos h, Finset.mem_insert]
      constructor
      · rintro (rfl | hs)
        · exact Or.inr ⟨rfl, h⟩
        · exact Or.inl hs
      · rintro (hs | ⟨rfl, _⟩)
        · exact Or.inr hs
        · exact Or.inl rfl
    · rw [if_neg h]
      refine ⟨Or.inl, ?_⟩
      rintro (hs | ⟨rfl, hp⟩)
      · exact hs
      · exact absurd hp h
  | seq xs =>
    show s ∈ collectSeq xs acc ↔ _
    rw [mem_collectSeq xs acc s, strReachable_seq_iff]
    constructor
    · rintro (hs | ⟨x, hx, hr, hp⟩)
      · exact Or.inl hs
      · exact Or.inr ⟨⟨x, hx, hr⟩, hp⟩
    · rintro (hs | ⟨⟨x, hx, hr⟩, hp⟩)
      · exact Or.inl hs
      · exact Or.inr ⟨x, hx, hr, hp⟩
  | map kvs =>
    show s ∈ collectMap kvs acc ↔ _
    rw [mem_collectMap kvs acc s, strReachable_map_iff]
    constructor
    · rintro (hs | ⟨kv, hkv, hr, hp⟩)
      · exact Or.inl hs
      · exact Or.inr ⟨⟨kv, hkv, hr⟩, hp⟩
    · rintro (hs | ⟨⟨kv, hkv, hr⟩, hp⟩)
      · exact Or.inl hs
      · exact Or.inr ⟨kv, hkv, hr, hp⟩
  | intVal n =>
    refine ⟨Or.inl, ?_⟩
    rintro (hs | ⟨hr, _⟩)
    · exact hs
    · cases hr
  | boolVal b =>
    refine ⟨Or.inl, ?_⟩
    rintro (hs | ⟨hr, _⟩)
    · exact hs
    · cases hr
  | nullVal =>
    refine ⟨Or.inl, ?_⟩
    rintro (hs | ⟨hr, _⟩)
    · exact hs
    · cases hr
  | foreign =>
    refine ⟨Or.inl, ?_⟩
    rintro (hs | ⟨hr, _⟩)
    · exact hs
    · cases hr

theorem mem_collectSeq (xs : List Structure) (acc : Finset String) (s : String) :
    s ∈ collectSeq xs acc ↔
      s ∈ acc ∨ ∃ x ∈ xs, StrReachable x s ∧ startsWithHttps s = true := by
  cases xs with
  | nil => simp [collectSeq]
  | cons x rest =>
    show s ∈ collectSeq rest (collect_urls x acc) ↔ _
    rw [mem_collectSeq rest (collect_urls x acc) s, mem_collect_urls x acc s]
    simp only [List.mem_cons]
    constructor
    · rintro ((hs | ⟨hr, hp⟩) | ⟨y, hy, hr, hp⟩)
      · exact Or.inl hs
      · exact Or.inr ⟨x, Or.inl rfl, hr, hp⟩
      · exact Or.inr ⟨y, Or.inr hy, hr, hp⟩
    · rintro (hs | ⟨y, (rfl | hy), hr, hp⟩)
      · exact Or.inl (Or.inl hs)
      · exact Or.inl (Or.inr ⟨hr, hp⟩)
      · exact Or.inr ⟨y, hy, hr, hp⟩

theorem mem_collectMap (kvs : List (String × Structure)) (acc : Finset String) (s : String) :
    s ∈ collectMap kvs acc ↔
      s ∈ acc ∨ ∃ kv ∈ kvs, StrReachable kv.2 s ∧ startsWithHttps s = true := by
  cases kvs with
  | nil => simp [collectMap]
  | cons kv rest =>
    show s ∈ collectMap rest (collect_urls kv.2 acc) ↔ _
    rw [mem_collectMap rest (collect_urls kv.2 acc) s, mem_collect_urls kv.2 acc s]
    simp only [List.mem_cons]
    constructor
    · rintro ((hs | ⟨hr, hp⟩) | ⟨y, hy, hr, hp⟩)
      · exact Or.inl hs
      · exact Or.inr ⟨kv, Or.inl rfl, hr, hp⟩
      · exact Or.inr ⟨y, Or.inr hy, hr, hp⟩
    · rintro (hs | ⟨y, (rfl | hy), hr, hp⟩)
      · exact Or.inl (Or.inl hs)
      · exact Or.inl (Or.inr ⟨hr, hp⟩)
      · exact Or.inr ⟨y, hy, hr, hp⟩
end

theorem collect_urls_eq_union (item : Structure) (acc : Finset String) :
    collect_urls item acc = acc ∪ extract_urls item := by
  ext t
  rw [Finset.mem_union, mem_collect_urls, extract_urls, mem_collect_urls]
  simp

theorem one_le_depth (item : Structure) : 1 ≤ depth item := by
  cases item <;> simp [depth]

mutual
theorem collectFuel_ok : ∀ (n : Nat) (item : Structure) (acc : Finset String),
    depth item ≤ n → collectFuel n item acc = some (collect_urls item acc)
  | 0, item, _, h => absurd h (by have := one_le_depth item; omega)
  | Nat.succ _, .str _, _, _ => rfl
  | Nat.succ _, .intVal _, _, _ => rfl
  | Nat.succ _, .boolVal _, _, _ => rfl
  | Nat.succ _, .nullVal, _, _ => rfl
  | Nat.succ _, .foreign, _, _ => rfl
  | Nat.succ m, .seq xs, acc, h =>
      collectFuelSeq_ok m xs acc (by simp only [depth] at h; omega)
  | Nat.succ m, .map kvs, acc, h =>
      collectFuelMap_ok m kvs acc (by simp only [depth] at h; omega)
termination_by n item _ _ => (n, sizeOf item)

theorem collectFuelSeq_ok : ∀ (n : Nat) (xs : List Structure) (acc : Finset String),
    depthSeq xs ≤ n → collectFuelSeq n xs acc = some (collectSeq xs acc)
  | _, [], _, _ => rfl
  | n, x :: rest, acc, h => by
      have hx : depth x ≤ n := le_trans (le_max_left _ _) (by simpa [depthSeq] using h)
      have hrest : depthSeq rest ≤ n := le_trans (le_max_right _ _) (by simpa [depthSeq] using h)
      show (match collectFuel n x acc with
        | none => none
        | some urls2 => collectFuelSeq n rest urls2) = some (collectSeq rest (collect_urls x acc))
      rw [collectFuel_ok n x acc hx]
      exact collectFuelSeq_ok n rest (collect_urls x acc) hrest
termination_by n xs _ _ => (n, sizeOf xs)

theorem collectFuelMap_ok : ∀ (n : Nat) (kvs : List (String × Structure)) (acc : Finset String),
    depthMap kvs ≤ n → collectFuelMap n kvs acc = some (collectMap kvs acc)
  | _, [], _, _ => rfl
  | n, (k, v) :: rest, acc, h => by
      have hv : depth v ≤ n := le_trans (le_max_left _ _) (by simpa [depthMap] using h)
      have hrest : depthMap rest ≤ n := le_trans (le_max_right _ _) (by simpa [depthMap] using h)
      show (match collectFuel n v acc with
        | none => none
        | some urls2 => collectFuelMap n rest urls2) = some (collectMap rest (collect_urls v acc))
      rw [collectFuel_ok n v acc hv]
      exact collectFuelMap_ok n rest (collect_urls v acc) hrest
termination_by n kvs _ _ => (n, sizeOf kvs)
end

theorem foldl_indexStep_absent (docs : List Doc) (idx : String → Option (Finset String))
    (name : String) (h : ∀ d ∈ docs, repoName d = name → d.struct = none) :
    docs.foldl indexStep idx name = idx name := by
  induction docs generalizing idx with
  | nil => rfl
  | cons d rest ih =>
    rw [List.foldl_cons, ih _ (fun d' hd' => h d' (List.mem_cons_of_mem _ hd'))]
    cases hs : d.struct with
    | none => simp [indexStep, hs]
    | some s =>
      have hne : name ≠ repoName d := by
        intro he
        have hcon := h d (List.mem_cons_self d rest) he.symm
        rw [hs] at hcon
        cases hcon
      simp [indexStep, hs, hne]

theorem foldl_indexStep_preserve (docs : List Doc) (idx : String → Option (Finset String))
    (name : String) (h : idx name ≠ none) : docs.foldl indexStep idx name ≠ none := by
  induction docs generalizing idx with
  | nil => exact h
  | cons d rest ih =>
    rw [List.foldl_cons]
    apply ih
    cases hs : d.struct with
    | none => simpa [indexStep, hs] using h
    | some s =>
      by_cases he : name = repoName d
      · simp [indexStep, hs, he]
      · simpa [indexStep, hs, he] using h

theorem foldl_indexStep_mem (docs : List Doc) (idx : String → Option (Finset String))
    (d : Doc) (s : Structure) (hd : d ∈ docs) (hs : d.struct = some s) :
    docs.foldl indexStep idx (repoName d) ≠ none := by
  induction docs generalizing idx with
  | nil => cases hd
  | cons d0 rest ih =>
    rw [List.foldl_cons]
    rcases List.mem_cons.mp hd with rfl | hd'
    · apply foldl_indexStep_preserve
      simp [indexStep, hs]
    · exact ih _ hd'

theorem buildIndex_append_last (docs : List Doc) (d : Doc) (s : Structure)
    (hs : d.struct = some s) :
    buildIndex (docs ++ [d]) (repoName d) = some (extract_urls s) := by
  unfold buildIndex
  rw [List.foldl_append]
  simp [indexStep, hs]

/-- C1: for every structure, `extract_urls` returns exactly the set of
distinct string values reachable through mapping values and sequence
elements that start with `https://`; mapping keys are never collected
(in `StrReachable` only sequence elements and mapping values are
followed), and non-string leaves and strings without the scheme
contribute nothing. -/
theorem extract_urls_exactly_reachable (st : Structure) (s : String) :
    s ∈ extract_urls st ↔ StrReachable st s ∧ startsWithHttps s = true := by
  rw [extract_urls, mem_collect_urls]
  simp

/-- C2: `extract_urls` is total (it is a function defined on every
`Structure`, including the `foreign` constructor standing for any Python
object outside the string/mapping/sequence/scalar domain), and a
`foreign` value is treated as a no-contribution scalar: it never changes
the accumulated set, it yields the empty set at the root, and dropping it
from a sequence leaves the result unchanged. -/
theorem extract_urls_total_on_foreign :
    (∀ acc : Finset String, collect_urls .foreign acc = acc) ∧
      extract_urls .foreign = ∅ ∧
      ∀ xs : List Structure, extract_urls (.seq (.foreign :: xs)) = extract_urls (.seq xs) :=
  ⟨fun _ => rfl, rfl, fun _ => rfl⟩

/-- C3: evaluation of `get_repository_urls` at the failing input.  When
the `MongoClient` constructor itself raises, the `except` clause catches
and prepares to return the empty dict, but the `finally` clause runs
`client.close()` on the never-assigned local `client`, so the call ends
with an uncaught `UnboundLocalError` instead of returning the empty
index; only failures after the client is bound (query or iteration) are
downgraded to the empty index as the spec describes. -/
theorem get_repository_urls_connect_failure :
    get_repository_urls .connectFailure = .raised unboundLocalError ∧
      get_repository_urls .queryFailure = .ok emptyIndex :=
  ⟨rfl, rfl⟩

/-- C4: the result of `extract_urls` never contains duplicates (the
underlying multiset of the returned finite set is duplicate-free), and
the same URL reached along two distinct paths, under key `a` and under
`b.c`, collapses to a single entry. -/
theorem extract_urls_no_duplicates :
    (∀ st : Structure, (extract_urls st).val.Nodup) ∧
      extract_urls
          (.map [("a", .str "https://x.com"), ("b", .map [("c", .str "https://x.com")])]) =
        {"https://x.com"} := by
  refine ⟨fun st => (extract_urls st).nodup, ?_⟩
  show insert "https://x.com" (insert "https://x.com" ∅) = {"https://x.com"}
  rw [Finset.insert_idem]
  rfl

/-- C5: last-write-wins.  Whatever documents came before, a final
document carrying a structure field binds its repository name to its own
extraction, overwriting any earlier binding for that name. -/
theorem buildIndex_last_write_wins (docs : List Doc) (d : Doc) (s : Structure)
    (hs : d.struct = some s) :
    buildIndex (docs ++ [d]) (repoName d) = some (extract_urls s) :=
  buildIndex_append_last docs d s hs

/-- C5 witness: two documents named `r`; the index keeps only the later
document's URL. -/
theorem buildIndex_last_write_wins_witness :
    (Doc.mk (some "r") (some (.str "https://b.com"))).struct = some (.str "https://b.com") ∧
      buildIndex ([⟨some "r", some (.str "https://a.com")⟩] ++
          [⟨some "r", some (.str "https://b.com")⟩]) "r" = some {"https://b.com"} :=
  ⟨rfl,
    buildIndex_last_write_wins [⟨some "r", some (.str "https://a.com")⟩]
      ⟨some "r", some (.str "https://b.com")⟩ (.str "https://b.com") rfl⟩

/-- C6 counterexample: the claim as stated is false.  The second document
is named `r` and lacks a structure field, yet `r` does appear as a key of
the index, because the first document with the same name supplied one. -/
theorem buildIndex_skip_counterexample :
    (Doc.mk (some "r") none).struct = none ∧
      buildIndex [⟨some "r", some (.str "https://a.com")⟩, ⟨some "r", none⟩]
          (repoName ⟨some "r", none⟩) ≠ none := by
  refine ⟨rfl, ?_⟩
  show some (extract_urls (.str "https://a.com")) ≠ none
  simp

/-- C6 amended: a document without a structure field contributes nothing
to the index, so a repository name that only ever occurs on such
documents does not appear as a key at all, not even mapped to an empty
set. -/
theorem buildIndex_absent_when_all_skipped (docs : List Doc) (name : String)
    (h : ∀ d ∈ docs, repoName d = name → d.struct = none) :
    buildIndex docs name = none :=
  foldl_indexStep_absent docs emptyIndex name h

/-- C6 amended witness: a single document named `q` without a structure
field; `q` is not a key of the index. -/
theorem buildIndex_absent_when_all_skipped_witness :
    (∀ d ∈ [Doc.mk (some "q") none], repoName d = "q" → d.struct = none) ∧
      buildIndex [Doc.mk (some "q") none] "q" = none := by
  have h : ∀ d ∈ [Doc.mk (some "q") none], repoName d = "q" → d.struct = none := by
    intro d hd
    rcases List.mem_cons.mp hd with rfl | hd2
    · intro _; rfl
    · cases hd2
  exact ⟨h, buildIndex_absent_when_all_skipped [Doc.mk (some "q") none] "q" h⟩

/-- C7: degenerate roots.  The empty mapping, the empty sequence, a
non-URL string and a number all extract to the empty set, while a bare
string root with the scheme yields the singleton set of that string. -/
theorem extract_urls_degenerate_roots :
    extract_urls (.map []) = ∅ ∧
      extract_urls (.seq []) = ∅ ∧
      extract_urls (.str "not a url") = ∅ ∧
      extract_urls (.intVal 42) = ∅ ∧
      extract_urls (.str "https://plain.com") = {"https://plain.com"} :=
  ⟨rfl, rfl, rfl, rfl, rfl⟩

/-- C8: extraction has no hidden state and is idempotent.  The set a call
produces is the incoming accumulated set united with a function of the
structure alone, so two successive invocations on the same structure
return the same set, and re-running the traversal on its own output adds
nothing.  (Purity itself is intrinsic: the embedding is a mathematical
function of its argument.) -/
theorem extract_urls_pure_idempotent (st : Structure) (acc : Finset String) :
    collect_urls st acc = acc ∪ extract_urls st ∧
      collect_urls st (extract_urls st) = extract_urls st := by
  refine ⟨collect_urls_eq_union st acc, ?_⟩
  rw [collect_urls_eq_union, Finset.union_self]

/-- C9: the traversal terminates on every finite structure, and a
recursion budget equal to the nesting depth suffices: the fuelled
traversal, which spends one frame per nesting level and fails with `none`
on exhaustion, succeeds and agrees with the unfuelled one whenever the
budget is at least the depth. -/
theorem collectFuel_terminates (st : Structure) (acc : Finset String) (n : Nat)
    (h : depth st ≤ n) : collectFuel n st acc = some (collect_urls st acc) :=
  collectFuel_ok n st acc h

/-- C9 witness: a structure of nesting depth 3 is fully traversed with a
budget of 3 frames. -/
theorem collectFuel_terminates_witness :
    depth (.map [("a", .seq [.str "https://a.com"])]) ≤ 3 ∧
      collectFuel 3 (.map [("a", .seq [.str "https://a.com"])]) ∅ =
        some (collect_urls (.map [("a", .seq [.str "https://a.com"])]) ∅) :=
  ⟨by decide, collectFuel_terminates (.map [("a", .seq [.str "https://a.com"])]) ∅ 3 (by decide)⟩

/-- C10: every document that has a structure field ends up in the index
under its repository name (which defaults to `Unknown` when absent),
whatever that extraction produced, so even a zero-URL repository appears
as a key rather than being omitted. -/
theorem buildIndex_keeps_zero_url_docs (docs : List Doc) (d : Doc) (s : Structure)
    (hd : d ∈ docs) (hs : d.struct = some s) :
    buildIndex docs (repoName d) ≠ none :=
  foldl_indexStep_mem docs emptyIndex d s hd hs

/-- C10 witness: an unnamed document whose structure is the empty mapping
(zero URLs) appears under the default name `Unknown`, bound to the empty
set. -/
theorem buildIndex_keeps_zero_url_docs_witness :
    (Doc.mk none (some (.map []))).struct = some (.map []) ∧
      buildIndex [Doc.mk none (some (.map []))] unknownName = some ∅ ∧
      buildIndex [Doc.mk none (some (.map []))] (repoName (Doc.mk none (some (.map [])))) ≠ none :=
  ⟨rfl, rfl,
    buildIndex_keeps_zero_url_docs [Doc.mk none (some (.map []))]
      (Doc.mk none (some (.map []))) (.map []) (List.mem_cons_self _ _) rfl⟩
